import Mathlib

/-!
Shallow embedding of the fert-calc core (vstakhov/fert-calc) and proofs about it.

Conventions used throughout:
* Rust `f64` values are embedded as exact rationals (`ℚ`); the floating-point
  rounding of the original is not modelled.  The `accurate::Sum2` compensated
  summation used by `Compound::molar_mass` is plain summation over `ℚ`.
* Rust `HashMap`s are embedded as association lists in deterministic insertion
  order; all consumers relevant to the claims are order-insensitive (sums,
  lookups, sorted output).
* `u32` atom counts are embedded as `ℕ` with every arithmetic step reduced
  `% 2^32`, the wrapping semantics of release builds (`cnt - 1` in
  `process_trail` is wrapping subtraction, count additions, multiplier
  accumulation `value*10 + digit` and the hydrate/sub-compound
  multiplications all wrap); a debug build panics instead of wrapping on the
  same inputs, so wherever a theorem below reports a wrapped value the real
  program either reports that value (release) or panics (debug) — it never
  reports the unwrapped one.
* Fallible Rust functions returning `anyhow::Result` are embedded as `Except`
  with one error constructor per distinct `anyhow!` message; `.unwrap()` calls
  that can panic are embedded as `Option` with `none` for the panic.
* Formulas are ASCII; `char::is_ascii_uppercase` / `is_lowercase` /
  `is_ascii_digit` agree with Lean's ASCII `Char.isUpper` / `isLower` /
  `isDigit` there.
-/

namespace FertCalc

/-- Equality of embedded results is decidable (needed to evaluate the parser
inside proofs by `decide`). -/
instance {e a : Type} [DecidableEq e] [DecidableEq a] : DecidableEq (Except e a) := fun x y =>
  match x, y with
  | .ok u, .ok v =>
    if h : u = v then .isTrue (by rw [h]) else .isFalse (fun hh => by cases hh; exact h rfl)
  | .error u, .error v =>
    if h : u = v then .isTrue (by rw [h]) else .isFalse (fun hh => by cases hh; exact h rfl)
  | .ok _, .error _ => .isFalse (fun hh => by cases hh)
  | .error _, .ok _ => .isFalse (fun hh => by cases hh)

/-- Parse errors of `Compound::new` (src/compound.rs); one constructor per
distinct `anyhow!` message, plus a constructor for fuel exhaustion of the
embedded recursion (never reached for the inputs used here). -/
inductive PError where
  | unknownElement (s : String)
  | danglingMultiplier
  | emptyCompound
  | invalidHydrate (s : String)
  | invalidAlias (s : String)
  | fuelExhausted
  deriving DecidableEq

/-- Mirror of `Element` (src/elements.rs).  The Rust field `molar_mass : f64`
is stored here in exact micro-units (`molar_mass_u` = molar mass × 10⁶, a
natural number) so that equality of elements stays kernel-decidable; the
rational molar mass is recovered by `Element.molar_mass` below.  The remaining
fields mirror the Rust struct, `Option` included. -/
structure Element where
  name : String
  molar_mass_u : ℕ
  insignificant : Option Bool
  priority : Option ℕ
  aliases : Option (List String)
  deriving DecidableEq

/-- The molar mass of an element as an exact rational (g/mol). -/
def Element.molar_mass (e : Element) : ℚ := (e.molar_mass_u : ℚ) / 1000000

/-- Mirror of `Element::is_insignificant`: `insignificant.unwrap_or(false)`. -/
def Element.is_insignificant (e : Element) : Bool := e.insignificant.getD false

/-- Mirror of `Element::priority()`: `priority.unwrap_or(0)`. -/
def Element.priorityD (e : Element) : ℕ := e.priority.getD 0

/-- Mirror of `Ord for Element` (src/elements.rs): priority descending, then
name ascending, as a boolean `≤`. -/
def Element.leOrd (a b : Element) : Bool :=
  if a.priorityD = b.priorityD then decide (a.name ≤ b.name)
  else decide (b.priorityD < a.priorityD)

/-- Mirror of `KnownElements` (src/elements.rs): the name → element map,
as an association list with unique names. -/
abbrev KnownElements : Type := List (String × Element)

/-- The element → atom count map of a `Compound` (`HashMap<Element, u32>`,
keyed by element name since `Eq`/`Hash` of `Element` use only the name),
as an association list in insertion order. -/
abbrev Cmap : Type := List (Element × ℕ)

/-- The modulus of `u32` arithmetic. -/
def u32size : ℕ := 4294967296

/-- Mirror of `*self.elements.entry(elt.clone()).or_default() += cnt`:
add `c` to the count of the element named like `e` in `u32` wrapping
arithmetic, inserting it with count `c % 2^32` if absent (a fresh key is
appended at the end). -/
def addCount : List (Element × ℕ) → Element → ℕ → List (Element × ℕ)
  | [], e, c => [(e, c % u32size)]
  | (x, k) :: rest, e, c =>
    if x.name = e.name then (x, (k + c) % u32size) :: rest else (x, k) :: addCount rest e c

/-- Merge every count of `sub`, multiplied by `k`, into `m` (the loop bodies
of `process_trail` and of the hydrate merge in `Compound::new`). -/
def mergeCounts (m : Cmap) (sub : Cmap) (k : ℕ) : Cmap :=
  sub.foldl (fun acc p => addCount acc p.1 (p.2 * k % u32size)) m

/-- Count registered in the map for the element with the given name. -/
def countOf : Cmap → String → Option ℕ
  | [], _ => none
  | (e, c) :: rest, s => if e.name = s then some c else countOf rest s

/-- Mirror of `Compound::process_acc`: look the accumulated name up in the
catalog, add `cnt` to its count, and return the resolved element;
`Unknown element` error otherwise. -/
def processAcc (m : Cmap) (acc : String) (cnt : ℕ) (cat : KnownElements) :
    Except PError (Cmap × Element) :=
  match List.lookup acc cat with
  | some elt => .ok (addCount m elt cnt, elt)
  | none => .error (.unknownElement acc)

/-- Mirror of `Compound::process_trail`: flush the pending digit / element /
sub-compound context into the map, returning the updated map and whether
anything was flushed.  `(cnt + 2^32 - 1) % 2^32` is the `u32` wrapping
subtraction `cnt - 1` (see the module comment on wrapping versus the debug
panic). -/
def processTrail (m : Cmap) (lastCnt : Option ℕ) (lastElement : Option Element)
    (lastSub : Option Cmap) : Except PError (Cmap × Bool) :=
  match lastCnt with
  | some cnt =>
    match lastSub with
    | some sub => .ok (mergeCounts m sub cnt, true)
    | none =>
      match lastElement with
      | some e => .ok (addCount m e ((cnt + u32size - 1) % u32size), true)
      | none => .error .danglingMultiplier
  | none =>
    match lastSub with
    | some sub => .ok (mergeCounts m sub 1, true)
    | none => .ok (m, false)

/-- The scan state of `Compound::new`: name accumulator, element map built so
far, last resolved element, pending sub-compound, pending digit multiplier and
the open/close parenthesis counters. -/
structure ParseSt where
  acc : List Char
  map : Cmap
  lastElement : Option Element
  lastSub : Option Cmap
  lastCnt : Option ℕ
  obraces : ℕ
  ebraces : ℕ

/-- Mirror of `Compound::new_hydrate`, parametrized by the recursive parser
`sub`: an optional single leading digit (default 1) followed by a sub-formula
whose counts are multiplied by that digit.  Formulas shorter than two
characters are rejected. -/
def newHydrate (sub : List Char → Except PError Cmap) (cs : List Char) :
    Except PError Cmap :=
  match cs with
  | [] => .error (.invalidHydrate (String.mk cs))
  | [c] => .error (.invalidHydrate (String.mk [c]))
  | c :: rest =>
    let mult := if c.isDigit then c.toNat - 48 else 1
    let remain := if c.isDigit then rest else c :: rest
    (sub remain).map (fun m => m.map (fun p => (p.1, p.2 * mult % u32size)))

/-- Mirror of the per-character loop of `Compound::new` (src/compound.rs),
parametrized by the recursive parser `sub` used for parenthesised
sub-compounds and hydrate suffixes.  Branch order and state updates follow the
Rust loop body literally; in particular the `'*'` branch merges the hydrate
counts and then CONTINUES the scan over the remaining characters (the Rust
loop has no break or return there). -/
def parseGo (cat : KnownElements) (sub : List Char → Except PError Cmap) :
    List Char → ParseSt → Except PError ParseSt
  | [], st => .ok st
  | c :: rest, st =>
    if st.obraces > 0 then
      let ob := if c = '(' then st.obraces + 1 else st.obraces
      let eb := if c = ')' then st.ebraces + 1 else st.ebraces
      if eb ≠ ob then
        parseGo cat sub rest { st with acc := st.acc ++ [c], obraces := ob, ebraces := eb }
      else
        match sub st.acc with
        | .error e => .error e
        | .ok m =>
          parseGo cat sub rest { st with lastSub := some m, obraces := 0, ebraces := 0, acc := [] }
    else if c.isUpper then
      match processTrail st.map st.lastCnt st.lastElement st.lastSub with
      | .error e => .error e
      | .ok (m1, flushed) =>
        let st1 := if flushed then
            { st with map := m1, lastElement := none, lastCnt := none, lastSub := none }
          else { st with map := m1 }
        if st1.acc.isEmpty then
          parseGo cat sub rest { st1 with acc := [c] }
        else
          match processAcc st1.map (String.mk st1.acc) 1 cat with
          | .error e => .error e
          | .ok (m2, elt) =>
            parseGo cat sub rest { st1 with map := m2, lastElement := some elt, acc := [c] }
    else if c.isLower then
      parseGo cat sub rest { st with acc := st.acc ++ [c] }
    else if c.isDigit then
      let newCnt : ℕ :=
        match st.lastCnt with
        | some x => (x * 10 + (c.toNat - 48)) % u32size
        | none => c.toNat - 48
      if st.lastSub.isNone && !st.acc.isEmpty then
        match processAcc st.map (String.mk st.acc) 1 cat with
        | .error e => .error e
        | .ok (m2, elt) =>
          parseGo cat sub rest { st with map := m2, lastElement := some elt, acc := [], lastCnt := some newCnt }
      else
        parseGo cat sub rest { st with lastCnt := some newCnt }
    else if c = '(' then
      match processTrail st.map st.lastCnt st.lastElement st.lastSub with
      | .error e => .error e
      | .ok (m1, flushed) =>
        if !flushed && !st.acc.isEmpty then
          match processAcc m1 (String.mk st.acc) 1 cat with
          | .error e => .error e
          | .ok (m2, _) =>
            parseGo cat sub rest { acc := [], map := m2, lastElement := none, lastSub := none, lastCnt := none, obraces := st.obraces + 1, ebraces := st.ebraces }
        else
          parseGo cat sub rest { acc := [], map := m1, lastElement := none, lastSub := none, lastCnt := none, obraces := st.obraces + 1, ebraces := st.ebraces }
    else if c = '*' then
      match newHydrate sub rest with
      | .error e => .error e
      | .ok hyd => parseGo cat sub rest { st with map := mergeCounts st.map hyd 1 }
    else
      parseGo cat sub rest st

/-- Mirror of the end-of-scan flush of `Compound::new`: one more
`process_trail`, a final `process_acc` of a leftover accumulator, then the
`Empty compound` check. -/
def finishParse (cat : KnownElements) (st : ParseSt) : Except PError Cmap :=
  match processTrail st.map st.lastCnt st.lastElement st.lastSub with
  | .error e => .error e
  | .ok (m, flushed) =>
    if !flushed && !st.acc.isEmpty then
      match processAcc m (String.mk st.acc) 1 cat with
      | .error e => .error e
      | .ok (m2, _) => if m2.isEmpty then .error .emptyCompound else .ok m2
    else
      if m.isEmpty then .error .emptyCompound else .ok m

/-- Fuel-indexed body of `Compound::new`: the recursion of the Rust parser
(on parenthesised slices and hydrate suffixes, both strictly shorter than the
input) is paid for with explicit fuel. -/
def parseAux (cat : KnownElements) : ℕ → List Char → Except PError Cmap
  | 0, _ => .error .fuelExhausted
  | fuel + 1, cs =>
    match parseGo cat (parseAux cat fuel) cs ⟨[], [], none, none, none, 0, 0⟩ with
    | .error e => .error e
    | .ok st => finishParse cat st

/-- Mirror of `Compound::new` (src/compound.rs): parse a formula string into
its element → atom count map.  The `name` field of the Rust struct is just
the input string and is omitted.  The fuel `length + 1` strictly dominates the
recursion depth, every recursive call being on a strictly shorter slice. -/
def compoundNew (formula : String) (cat : KnownElements) : Except PError Cmap :=
  parseAux cat (formula.length + 1) formula.toList

/-- Mirror of `Compound::molar_mass`: Σ count × element molar mass (see the
module comment for the `Sum2` note). -/
def molarMass (m : Cmap) : ℚ := m.foldl (fun a p => a + p.1.molar_mass * p.2) 0

/-- Mirror of `Compound::element_fraction`:
`count × molar_mass(element) / molar_mass(compound)`, absent when the element
is not in the compound. -/
def elementFraction (m : Cmap) (e : Element) : Option ℚ :=
  (countOf m e.name).map (fun c => e.molar_mass * (c : ℚ) / molarMass m)

/-- Mirror of `Element::element_from_alias_rate` (src/elements.rs): parse the
alias as a compound and take this element's fraction inside it. -/
def elementFromAliasRate (e : Element) (aliasStr : String) (cat : KnownElements) :
    Except PError ℚ :=
  match compoundNew aliasStr cat with
  | .error er => .error er
  | .ok mol =>
    match elementFraction mol e with
    | some q => .ok q
    | none => .error (.invalidAlias aliasStr)

/-- Mirror of `Element::element_to_alias_rate`: the reciprocal of
`element_from_alias_rate`. -/
def elementToAliasRate (e : Element) (aliasStr : String) (cat : KnownElements) :
    Except PError ℚ :=
  (elementFromAliasRate e aliasStr cat).map (fun r => 1 / r)


/-- Option-valued effectful map (the embedding of Rust `map(...).collect()`
over results whose failure is a panic): `none` as soon as one element fails. -/
def mapOpt (f : α → Option β) : List α → Option (List β)
  | [] => some []
  | x :: xs =>
    match f x with
    | none => none
    | some y => (mapOpt f xs).map (fun ys => y :: ys)

/-- Stable insertion into a sorted list (used to embed `itertools::sorted`). -/
def insertBy (le : α → α → Bool) (x : α) : List α → List α
  | [] => [x]
  | y :: ys => if le y x then y :: insertBy le x ys else x :: y :: ys

/-- Insertion sort by a boolean `≤`, the embedding of `itertools::sorted`
(the claims below use it only through lookups that are permutation-invariant
for duplicate-free keys). -/
def sortBy (le : α → α → Bool) : List α → List α
  | [] => []
  | x :: xs => insertBy le x (sortBy le xs)

/-- Mirror of `ElementsConcentrationsWithAliases` (src/concentration.rs);
an alias entry `(alias string, concentration)` mirrors
`ElementConcentrationAlias`. -/
structure ElementConc where
  element : Element
  concentration : ℚ
  aliases : List (String × ℚ)
  deriving DecidableEq

/-- Mirror of `ElementsDosesWithAliases` (src/concentration.rs). -/
structure ElementDose where
  element : Element
  dose : ℚ
  aliases : List (String × ℚ)
  deriving DecidableEq

/-- Sorting of concentration rows by the `Element` order. -/
def sortConcs : List ElementConc → List ElementConc :=
  sortBy (fun a b => Element.leOrd a.element b.element)

/-- Sorting of dose rows by the `Element` order. -/
def sortDoses : List ElementDose → List ElementDose :=
  sortBy (fun a b => Element.leOrd a.element b.element)

/-- The alias rows of one element in `components_percentage`
(both impls): for every configured alias, `percentage × alias rate`; the Rust
`.unwrap()` on the rate makes this a panic (`none`) when a rate fails. -/
def aliasConcs (e : Element) (pct : ℚ) (cat : KnownElements) :
    Option (List (String × ℚ)) :=
  match e.aliases with
  | none => some []
  | some al => mapOpt (fun a => (elementToAliasRate e a cat).toOption.map (fun r => (a, pct * r))) al

/-- Mirror of `Compound::components_percentage` (impl Fertilizer for Compound,
src/compound.rs): for every non-insignificant element of the map, its mass
fraction and alias rows, sorted by the element order; `none` embeds the panic
of the `.unwrap()` on a failed alias rate. -/
def compoundComponentsPercentage (m : Cmap) (cat : KnownElements) :
    Option (List ElementConc) :=
  (mapOpt (fun p =>
      (aliasConcs p.1 (p.1.molar_mass * (p.2 : ℚ) / molarMass m) cat).map
        (fun al => ⟨p.1, p.1.molar_mass * (p.2 : ℚ) / molarMass m, al⟩))
    (m.filter (fun p => !p.1.is_insignificant))).map sortConcs

/-- Mirror of `MixedFertilizer::components_percentage` (src/mix.rs): the
stored fractions are re-exposed directly (no molar-mass step), with the same
filtering, alias and sorting rules. -/
def mixComponentsPercentage (comp : List (Element × ℚ)) (cat : KnownElements) :
    Option (List ElementConc) :=
  (mapOpt (fun p =>
      (aliasConcs p.1 p.2 cat).map (fun al => ⟨p.1, p.2, al⟩))
    (comp.filter (fun p => !p.1.is_insignificant))).map sortConcs

/-- Mirror of `MacroElements` (src/mix.rs). -/
structure MacroElements where
  nitrogen_percentage : ℚ
  p2o5_percentage : ℚ
  k2o_percentage : ℚ
  mgo_percentage : ℚ

/-- `f64::EPSILON` = 2⁻⁵², the threshold used by `push_macro_elements`. -/
def f64Eps : ℚ := 1 / 4503599627370496

/-- `HashMap::insert` on the elements-composition map: replace the value of
an existing key (by element name) or append a fresh one. -/
def insertComp : List (Element × ℚ) → Element → ℚ → List (Element × ℚ)
  | [], e, q => [(e, q)]
  | (x, v) :: rest, e, q =>
    if x.name = e.name then (x, q) :: rest else (x, v) :: insertComp rest e q

/-- Fraction stored in a composition for the element with the given name. -/
def fracOf : List (Element × ℚ) → String → Option ℚ
  | [], _ => none
  | (e, q) :: rest, s => if e.name = s then some q else fracOf rest s

/-- Mirror of `MixedFertilizer::push_macro_elements` (src/mix.rs): nitrogen
goes in as elemental percent / 100; P, K, Mg go in as oxide percentages
(P2O5, K2O, MgO) times the element-from-alias rate / 100.  The `.unwrap()`
calls on the catalog lookups and the alias rates are embedded as `Option`
binds (`none` = panic). -/
def pushMacroElements (macros : MacroElements) (cat : KnownElements) :
    Option (List (Element × ℚ)) :=
  match (if macros.nitrogen_percentage > f64Eps then
      (List.lookup "N" cat).map (fun n => insertComp [] n (macros.nitrogen_percentage / 100))
    else some []) with
  | none => none
  | some l1 =>
    match (if macros.p2o5_percentage > f64Eps then
        match List.lookup "P" cat with
        | none => none
        | some p => ((elementFromAliasRate p "P2O5" cat).toOption).map
            (fun r => insertComp l1 p (r * macros.p2o5_percentage / 100))
      else some l1) with
    | none => none
    | some l2 =>
      match (if macros.k2o_percentage > f64Eps then
          match List.lookup "K" cat with
          | none => none
          | some k => ((elementFromAliasRate k "K2O" cat).toOption).map
              (fun r => insertComp l2 k (r * macros.k2o_percentage / 100))
        else some l2) with
      | none => none
      | some l3 =>
        match (if macros.mgo_percentage > f64Eps then
            match List.lookup "Mg" cat with
            | none => none
            | some mg => ((elementFromAliasRate mg "MgO" cat).toOption).map
                (fun r => insertComp l3 mg (r * macros.mgo_percentage / 100))
          else some l3) with
        | none => none
        | some l4 => some l4

/-- Mirror of `DiluteCalcType` (src/concentration.rs). -/
inductive DiluteCalcType where
  | resultOfDose
  | targetDose
  deriving DecidableEq

/-- Mirror of `DiluteResult` (src/concentration.rs). -/
structure DiluteResult where
  compound_dose : ℚ
  elements_dose : List ElementDose
  deriving DecidableEq

/-- The dosing errors of `DryDosing::dilute` / `SolutionDosing::dilute`. -/
inductive DoseError where
  | noTargetElement
  | missingTargetElement (s : String)
  deriving DecidableEq

/-- Mirror of `dilute_fertilizer` (src/concentration.rs): scale every
concentration (and alias concentration) by `mult` and sort. -/
def diluteFertilizer (concs : List ElementConc) (mult : ℚ) : List ElementDose :=
  sortDoses (concs.map (fun ec =>
    ⟨ec.element, ec.concentration * mult, ec.aliases.map (fun p => (p.1, p.2 * mult))⟩))

/-- The target-element lookup of both dilute impls:
`concentrations.iter().position(|elt| elt.element.name == target)` followed by
`get` — the first row whose element name matches. -/
def findTarget (concs : List ElementConc) (t : String) : Option ElementConc :=
  concs.find? (fun ec => ec.element.name == t)

/-- Dose looked up by element name in a dose report. -/
def doseFor (l : List ElementDose) (t : String) : Option ℚ :=
  (l.find? (fun d => d.element.name == t)).map (fun d => d.dose)

/-- Mirror of `DryDosing` (src/concentration.rs). -/
structure DryDosing where
  dilute_input : ℚ
  what : DiluteCalcType
  target_element : Option String

/-- Mirror of `DryDosing::dilute` (src/concentration.rs), parametrized by the
precomputed `components_percentage` rows of the fertilizer and the tank's
`effective_volume()` (the only data the Rust body reads from the fertilizer
and the tank). -/
def DryDosing.dilute (d : DryDosing) (concs : List ElementConc) (effVolume : ℕ) :
    Except DoseError DiluteResult :=
  match d.what with
  | .resultOfDose =>
    let mult := d.dilute_input * 1000 / (effVolume : ℚ)
    .ok ⟨mult * (effVolume : ℚ) / 1000, diluteFertilizer concs mult⟩
  | .targetDose =>
    match d.target_element with
    | none => .error .noTargetElement
    | some t =>
      match findTarget concs t with
      | none => .error (.missingTargetElement t)
      | some fe =>
        let mult := d.dilute_input / fe.concentration
        .ok ⟨mult * (effVolume : ℚ) / 1000, diluteFertilizer concs mult⟩

/-- Mirror of `SolutionDosing` (src/concentration.rs). -/
structure SolutionDosing where
  container_volume : ℚ
  portion_volume : ℚ
  dose : ℚ
  what : DiluteCalcType
  target_element : Option String

/-- Mirror of `SolutionDosing::dilute` (src/concentration.rs), parametrized
like `DryDosing.dilute`. -/
def SolutionDosing.dilute (s : SolutionDosing) (concs : List ElementConc)
    (effVolume : ℕ) : Except DoseError DiluteResult :=
  let doseRes : Except DoseError ℚ :=
    match s.what with
    | .resultOfDose => .ok s.dose
    | .targetDose =>
      match s.target_element with
      | none => .error .noTargetElement
      | some t =>
        match findTarget concs t with
        | none => .error (.missingTargetElement t)
        | some fe =>
          .ok (s.dose * (effVolume : ℚ) / fe.concentration * s.container_volume /
            s.portion_volume / 1000)
  match doseRes with
  | .error e => .error e
  | .ok dose =>
    let mult := (dose * 1000 / s.container_volume * s.portion_volume) / (effVolume : ℚ)
    .ok ⟨dose, diluteFertilizer concs mult⟩

/-- Mirror of `REAL_VOLUME_MULT` (src/tank.rs). -/
def REAL_VOLUME_MULT : ℚ := 85 / 100

/-- The `volume` field of `Tank` (src/tank.rs): a literal volume in liters or
linear dimensions in decimeters (`LinearDimensions`). -/
inductive TankVolume where
  | lit (v : ℚ)
  | linear (height length width : ℚ)

/-- Mirror of `Tank` (src/tank.rs). -/
structure Tank where
  volume : TankVolume
  absolute : Bool

/-- The raw volume: the literal, or `LinearDimensions::volume` =
height × length × width. -/
def TankVolume.value : TankVolume → ℚ
  | .lit v => v
  | .linear h l w => h * l * w

/-- Mirror of `Tank::effective_volume`: `(vol * mult) as usize` where `mult`
is 1.0 when `absolute` else 0.85.  The `as usize` cast truncates toward zero
and saturates at 0 for negative values, which is exactly `Int.toNat ∘ floor`
on nonnegative-rounded rationals. -/
def Tank.effectiveVolume (t : Tank) : ℕ :=
  (⌊t.volume.value * (if t.absolute then 1 else REAL_VOLUME_MULT)⌋).toNat

/-- Mirror of `Tank::metric_volume`: `vol as usize`. -/
def Tank.metricVolume (t : Tank) : ℕ := (⌊t.volume.value⌋).toNat

/-- A JSON value, the embedding of `serde_json::Value` for the fertilizer
catalog loader (objects keep their textual field order). -/
inductive Json where
  | str (s : String)
  | num (q : ℚ)
  | bool (b : Bool)
  | null
  | arr (elems : List Json)
  | obj (fields : List (String × Json))

/-- Errors of `FertilizersDb::load_db`, one constructor per `anyhow!` site
(plus the errors bubbled up from `Compound::new` and the mix constructor). -/
inductive LoadError where
  | topLevelNotObject
  | fertNotObject (name : String)
  | formulaNotString (name : String)
  | compoundError (e : PError)
  | invalidMixEntry (name : String)
  deriving DecidableEq

/-- A loaded fertilizer: a parsed compound or a mixed blend
(`Box<dyn Fertilizer>` in Rust, a closed sum here). -/
inductive Fert where
  | compound (elements : Cmap)
  | mix (composition : List (Element × ℚ))
  deriving DecidableEq

/-- `HashMap::insert` on the fertilizer DB: replace or append by name. -/
def insertFert : List (String × Fert) → String → Fert → List (String × Fert)
  | [], name, f => [(name, f)]
  | (n, g) :: rest, name, f =>
    if n = name then (n, f) :: rest else (n, g) :: insertFert rest name f

/-- `fert_obj.contains_key(k)` on a JSON object's fields. -/
def hasKey (fields : List (String × Json)) (k : String) : Bool :=
  fields.any (fun p => p.1 == k)

/-- `fert_obj.get(k)` on a JSON object's fields. -/
def getKey (fields : List (String × Json)) (k : String) : Option Json :=
  (fields.find? (fun p => p.1 == k)).map (fun p => p.2)

/-- True for JSON numbers (`v.is_integer() || v.is_float()` in the Rust
TOML analogue). -/
def Json.isNum : Json → Bool
  | .num _ => true
  | _ => false

/-- Add `q` to the stored fraction of `e` (or insert it), mirroring
`*res.elements_composition.entry(...).or_default() += ...`. -/
def addFrac : List (Element × ℚ) → Element → ℚ → List (Element × ℚ)
  | [], e, q => [(e, q)]
  | (x, v) :: rest, e, q =>
    if x.name = e.name then (x, v + q) :: rest else (x, v) :: addFrac rest e q

/-- Modelled from the spec: `MixedFertilizer::new_from_json_object` is called
by `FertilizersDb::load_db` (src/fertilizers_db.rs) but its definition is not
under src/; only the TOML analogue `MixedFertilizer::new_from_toml_object`
(src/mix.rs) is.  Following spec §4.4 and that analogue: the entry must carry
a `compounds` object whose keys all parse as compounds and whose values are
all numbers, and each compound's `components_percentage`, scaled by its
portion, is accumulated per significant element (a panic inside
`components_percentage` is reported as an error here). -/
def mixFromJson (name : String) (v : Json) (cat : KnownElements) :
    Except LoadError Fert :=
  match v with
  | .obj fields =>
    match getKey fields "compounds" with
    | some (.obj comps) =>
      if comps.all (fun p => p.2.isNum && (compoundNew p.1 cat).isOk) then
        let step : Except LoadError (List (Element × ℚ)) := comps.foldlM (fun (acc : List (Element × ℚ)) p =>
          match p.2 with
          | .num q =>
            match compoundNew p.1 cat with
            | .error e => Except.error (.compoundError e)
            | .ok m =>
              match compoundComponentsPercentage m cat with
              | none => Except.error (.invalidMixEntry name)
              | some concs =>
                Except.ok ((concs.filter (fun c => !c.element.is_insignificant)).foldl
                  (fun a c => addFrac a c.element (c.concentration * q)) acc)
          | _ => Except.ok acc) []
        step.map Fert.mix
      else
        .error (.invalidMixEntry name)
    | _ => .error (.invalidMixEntry name)
  | _ => .error (.invalidMixEntry name)

/-- The per-entry loop of `FertilizersDb::load_db` (src/fertilizers_db.rs):
a non-object entry fails the whole load; an object with a `compounds` key
loads as a mix; otherwise an object with a `formula` key (whose value must be
a string) loads as a compound; an object with NEITHER key falls through both
branches of the Rust `if`/`else if` and is silently skipped. -/
def loadDbGo (cat : KnownElements) :
    List (String × Json) → List (String × Fert) → Except LoadError (List (String × Fert))
  | [], db => .ok db
  | (name, v) :: rest, db =>
    match v with
    | .obj fields =>
      if hasKey fields "compounds" then
        match mixFromJson name (.obj fields) cat with
        | .error e => .error e
        | .ok f => loadDbGo cat rest (insertFert db name f)
      else if hasKey fields "formula" then
        match getKey fields "formula" with
        | some (.str fstr) =>
          match compoundNew fstr cat with
          | .error e => .error (.compoundError e)
          | .ok m => loadDbGo cat rest (insertFert db name (.compound m))
        | _ => .error (.formulaNotString name)
      else
        loadDbGo cat rest db
    | _ => .error (.fertNotObject name)

/-- Mirror of `FertilizersDb::load_db` (src/fertilizers_db.rs), starting from
the already-parsed JSON document: the top level must be an object, whose
entries are folded into the catalog by `loadDbGo`. -/
def loadDb (v : Json) (cat : KnownElements) : Except LoadError (List (String × Fert)) :=
  match v with
  | .obj entries => loadDbGo cat entries []
  | _ => .error .topLevelNotObject


/-- Modelled from the spec: the standard element catalog.  The program loads
it from `elements.toml`, which is not under src/ (src only embeds or reads
it), so the catalog is reconstructed here: the standard atomic weights
(in micro-units, g/mol × 10⁶) consistent with every expected output of
spec §8, display priorities strictly decreasing in the spec's output order
N, P, K, Mg, and the oxide aliases P2O5 / K2O / MgO that
`MixedFertilizer::push_macro_elements` requires; O and H are the
insignificant elements (spec §8 lists only N and K for KNO3 dosing). -/
def eltN : Element := ⟨"N", 14007000, none, some 10, none⟩

/-- Phosphorus, with the P2O5 oxide alias (see `stdCatalog`). -/
def eltP : Element := ⟨"P", 30973762, none, some 9, some ["P2O5"]⟩

/-- Potassium, with the K2O oxide alias (see `stdCatalog`). -/
def eltK : Element := ⟨"K", 39098300, none, some 8, some ["K2O"]⟩

/-- Magnesium, with the MgO oxide alias (see `stdCatalog`). -/
def eltMg : Element := ⟨"Mg", 24305000, none, some 7, some ["MgO"]⟩

/-- Calcium (see `stdCatalog`). -/
def eltCa : Element := ⟨"Ca", 40078000, none, some 5, none⟩

/-- Oxygen, insignificant (see `stdCatalog`). -/
def eltO : Element := ⟨"O", 15999000, some true, none, none⟩

/-- Hydrogen, insignificant (see `stdCatalog`). -/
def eltH : Element := ⟨"H", 1007800, some true, none, none⟩

/-- The modelled standard element catalog (see the comment on `eltN`). -/
def stdCatalog : KnownElements :=
  [("N", eltN), ("P", eltP), ("K", eltK), ("Mg", eltMg), ("Ca", eltCa), ("O", eltO), ("H", eltH)]

/-- A significant element whose alias "Zz" does not parse against its catalog
(the alias-fails-to-parse disjunct of claim C10). -/
def eltX : Element := ⟨"X", 10000000, none, none, some ["Zz"]⟩

/-- A catalog in which `eltX`'s alias fails to parse. -/
def badCat : KnownElements := [("X", eltX)]

/-- A significant element whose alias "Y" parses but does not contain the
element (the parses-but-lacks-the-element disjunct of claim C10). -/
def eltX2 : Element := ⟨"X", 10000000, none, none, some ["Y"]⟩

/-- The element the alias "Y" resolves to. -/
def eltY : Element := ⟨"Y", 5000000, none, none, none⟩

/-- A catalog in which `eltX2`'s alias parses to a compound without X. -/
def badCat2 : KnownElements := [("X", eltX2), ("Y", eltY)]

/-- The success predicate of an alias-rate computation used by the C10
precondition: the alias parsed and the element occurs in it with a nonzero
fraction. -/
def okNonzeroB (x : Except PError ℚ) : Bool :=
  match x with
  | .ok q => q != 0
  | .error _ => false

/-! ### Auxiliary lemmas -/

/-- A digit character (ASCII 48–57) has a code in that range. -/
lemma char_isDigit_toNat {c : Char} (h : c.isDigit = true) : 48 ≤ c.val.toNat ∧ c.val.toNat ≤ 57 := by
  simp only [Char.isDigit, Bool.and_eq_true, decide_eq_true_eq] at h
  exact ⟨UInt32.le_toNat_of_le (by norm_num [UInt32.size]) h.1,
    UInt32.toNat_le_of_le (by norm_num [UInt32.size]) h.2⟩

/-- A digit character is not an uppercase letter. -/
lemma isUpper_false_of_isDigit {c : Char} (h : c.isDigit = true) : c.isUpper = false := by
  obtain ⟨h1, h2⟩ := char_isDigit_toNat h
  rw [Bool.eq_false_iff]
  intro hc
  simp only [Char.isUpper, Bool.and_eq_true, decide_eq_true_eq] at hc
  have := UInt32.le_toNat_of_le (m := 65) (by norm_num [UInt32.size]) hc.1
  omega

/-- A digit character is not a lowercase letter. -/
lemma isLower_false_of_isDigit {c : Char} (h : c.isDigit = true) : c.isLower = false := by
  obtain ⟨h1, h2⟩ := char_isDigit_toNat h
  rw [Bool.eq_false_iff]
  intro hc
  simp only [Char.isLower, Bool.and_eq_true, decide_eq_true_eq] at hc
  have := UInt32.le_toNat_of_le (m := 97) (by norm_num [UInt32.size]) hc.1
  omega

/-- A lowercase letter (ASCII 97–122) is not an uppercase letter. -/
lemma isUpper_false_of_isLower {c : Char} (h : c.isLower = true) : c.isUpper = false := by
  simp only [Char.isLower, Bool.and_eq_true, decide_eq_true_eq] at h
  have h1 := UInt32.le_toNat_of_le (m := 97) (by norm_num [UInt32.size]) h.1
  rw [Bool.eq_false_iff]
  intro hc
  simp only [Char.isUpper, Bool.and_eq_true, decide_eq_true_eq] at hc
  have h2 := UInt32.toNat_le_of_le (m := 90) (by norm_num [UInt32.size]) hc.2
  omega

/-- Over a run of lowercase letters the scan only extends the name
accumulator (multi-letter element symbols). -/
lemma goLowers (cat : KnownElements) (sub : List Char → Except PError Cmap) :
    ∀ (ls rest : List Char) (st : ParseSt), (∀ c ∈ ls, c.isLower = true) → st.obraces = 0 →
    parseGo cat sub (ls ++ rest) st = parseGo cat sub rest { st with acc := st.acc ++ ls } := by
  intro ls
  induction ls with
  | nil => intro rest st _ _; simp
  | cons c ltail ih =>
    intro rest st h hob
    have hc : c.isLower = true := h c (by simp)
    rw [List.cons_append, parseGo]
    simp only [hob, lt_self_iff_false, if_false, isUpper_false_of_isLower hc,
      Bool.false_eq_true, hc, if_true]
    rw [ih rest _ (fun x hx => h x (by simp [hx])) rfl]
    simp [List.append_assoc]

/-- Over a run of digit characters the scan only accumulates the pending
multiplier, `(value*10 + digit) % 2^32` at each step, leaving the rest of the
state untouched. -/
lemma goDigits (cat : KnownElements) (sub : List Char → Except PError Cmap) :
    ∀ (ds : List Char) (m : Cmap) (e : Element) (w : ℕ), (∀ c ∈ ds, c.isDigit = true) →
    parseGo cat sub ds ⟨[], m, some e, none, some w, 0, 0⟩ =
      .ok ⟨[], m, some e, none,
        some (ds.foldl (fun a c => (a * 10 + (c.toNat - 48)) % u32size) w), 0, 0⟩ := by
  intro ds
  induction ds with
  | nil => intro m e w _; rfl
  | cons c dtail ih =>
    intro m e w h
    have hd : c.isDigit = true := h c (by simp)
    rw [parseGo]
    simp only [lt_self_iff_false, if_false, isUpper_false_of_isDigit hd,
      isLower_false_of_isDigit hd, hd, if_true, Option.isNone_none, List.isEmpty_nil,
      Bool.not_true, Bool.and_false, Bool.false_eq_true, Bool.true_and, if_neg]
    rw [ih m e ((w * 10 + (c.toNat - 48)) % u32size) (fun x hx => h x (by simp [hx]))]
    simp [List.foldl]

/-- The accumulated multiplier stays below 2^32 once it is. -/
lemma foldl_digits_lt (ds : List Char) : ∀ w : ℕ, w < u32size →
    ds.foldl (fun a c => (a * 10 + (c.toNat - 48)) % u32size) w < u32size := by
  induction ds with
  | nil => intro w hw; simpa using hw
  | cons c dtail ih =>
    intro w _
    rw [List.foldl_cons]
    exact ih _ (Nat.mod_lt _ (by norm_num [u32size]))

/-- The net count of the digit flush: a provisional 1 plus the wrapped
`cnt - 1`, reduced mod 2^32, is `cnt % 2^32`. -/
lemma one_add_wrapped_pred (v : ℕ) : (1 + (v + u32size - 1) % u32size) % u32size = v % u32size := by
  rw [u32size] at *
  omega

/-- `addCount` performs a wrapped addition on the stored count. -/
lemma countOf_addCount (e : Element) (c : ℕ) : ∀ (m : Cmap) (k : ℕ),
    countOf m e.name = some k →
    countOf (addCount m e c) e.name = some ((k + c) % u32size) := by
  intro m
  induction m with
  | nil => intro k h; simp [countOf] at h
  | cons p rest ih =>
    intro k h
    obtain ⟨x, k0⟩ := p
    by_cases hn : x.name = e.name
    · rw [countOf, if_pos hn] at h
      cases h
      rw [addCount, if_pos hn, countOf, if_pos hn]
    · rw [countOf, if_neg hn] at h
      rw [addCount, if_neg hn, countOf, if_neg hn]
      exact ih k h

/-- `mapOpt` fails as soon as one element's computation fails. -/
lemma mapOpt_eq_none (f : α → Option β) : ∀ (l : List α) (x : α), x ∈ l → f x = none →
    mapOpt f l = none := by
  intro l
  induction l with
  | nil => intro x hx; simp at hx
  | cons y ys ih =>
    intro x hx hfx
    rw [mapOpt]
    rcases List.mem_cons.mp hx with h | h
    · subst h
      rw [hfx]
    · cases hy : f y with
      | none => rfl
      | some v =>
        rw [ih x h hfx]
        rfl

/-- Inserting with `insertBy` permutes to a `cons`. -/
lemma insertBy_perm (le : α → α → Bool) (x : α) : ∀ l : List α, (insertBy le x l).Perm (x :: l)
  | [] => List.Perm.refl _
  | y :: ys => by
    rw [insertBy]
    by_cases h : le y x = true
    · rw [if_pos h]
      exact ((insertBy_perm le x ys).cons y).trans (List.Perm.swap x y ys)
    · rw [if_neg h]

/-- `sortBy` is a permutation (the embedding of `itertools::sorted`). -/
lemma sortBy_perm (le : α → α → Bool) : ∀ l : List α, (sortBy le l).Perm l
  | [] => List.Perm.refl _
  | x :: xs => (insertBy_perm le x (sortBy le xs)).trans ((sortBy_perm le xs).cons x)

/-- `find?` is the head of `filter`. -/
lemma find_eq_head_filter (p : α → Bool) (l : List α) : l.find? p = (l.filter p).head? := by
  induction l with
  | nil => rfl
  | cons x xs ih =>
    cases h : p x
    · rw [List.find?_cons_of_neg _ (by simp [h]), List.filter_cons, h]
      simp only [Bool.false_eq_true, if_false]
      exact ih
    · rw [List.find?_cons_of_pos _ h, List.filter_cons, h]
      simp

/-- With duplicate-free element names, filtering by the found name keeps
exactly the found row. -/
lemma filter_singleton_of_nodup (E : String) (fe : ElementConc) :
    ∀ l : List ElementConc, (l.map (fun c => c.element.name)).Nodup →
    l.find? (fun c => c.element.name == E) = some fe →
    l.filter (fun c => c.element.name == E) = [fe] := by
  intro l
  induction l with
  | nil => intro _ h; simp [List.find?] at h
  | cons c t ih =>
    intro hn hf
    rw [List.find?] at hf
    rw [List.filter]
    by_cases h : (c.element.name == E) = true
    · rw [h] at hf
      simp only at hf
      have hcfe : c = fe := Option.some.inj hf
      rw [h, ← hcfe]
      simp only [List.map, List.nodup_cons] at hn
      have ht : t.filter (fun x => x.element.name == E) = [] := by
        rw [List.filter_eq_nil_iff]
        intro a ha hpa
        apply hn.1
        rw [List.mem_map]
        refine ⟨a, ha, ?_⟩
        have h1 : a.element.name = E := by simpa using hpa
        have h2 : c.element.name = E := by simpa using h
        rw [h1, h2]
      rw [ht]
    · simp only [Bool.not_eq_true] at h
      rw [h] at hf
      simp only at hf
      rw [h]
      simp only [List.map, List.nodup_cons] at hn
      exact ih hn.2 hf

/-- The dose reported by `dilute_fertilizer` for the target row: its
concentration times the multiplier, independent of the final sorting
(element names being duplicate-free). -/
lemma doseFor_diluteFertilizer (concs : List ElementConc) (mult : ℚ) (E : String)
    (fe : ElementConc) (hn : (concs.map (fun c => c.element.name)).Nodup)
    (hf : findTarget concs E = some fe) :
    doseFor (diluteFertilizer concs mult) E = some (fe.concentration * mult) := by
  classical
  set f : ElementConc → ElementDose := fun ec =>
    ⟨ec.element, ec.concentration * mult, ec.aliases.map (fun p => (p.1, p.2 * mult))⟩ with hfdef
  have hperm : (diluteFertilizer concs mult).Perm (concs.map f) := sortBy_perm _ _
  have hfilter : (concs.map f).filter (fun d => d.element.name == E) =
      (concs.filter (fun c => c.element.name == E)).map f := by
    rw [List.filter_map]
    rfl
  have hsing : (concs.filter (fun c => c.element.name == E)) = [fe] :=
    filter_singleton_of_nodup E fe concs hn hf
  have hfil2 : ((diluteFertilizer concs mult).filter (fun d => d.element.name == E)).Perm
      ((concs.map f).filter (fun d => d.element.name == E)) := hperm.filter _
  rw [hfilter, hsing] at hfil2
  have hone : (diluteFertilizer concs mult).filter (fun d => d.element.name == E) = [f fe] :=
    List.perm_singleton.mp hfil2
  rw [doseFor, find_eq_head_filter, hone]
  rfl

/-- `mapOpt` succeeds when every element's computation succeeds. -/
lemma mapOpt_isSome (f : α → Option β) : ∀ l : List α, (∀ x ∈ l, (f x).isSome) →
    (mapOpt f l).isSome
  | [] => fun _ => rfl
  | x :: xs => fun h => by
    rw [mapOpt]
    obtain ⟨y, hy⟩ := Option.isSome_iff_exists.mp (h x (by simp))
    rw [hy]
    obtain ⟨ys, hys⟩ := Option.isSome_iff_exists.mp
      (mapOpt_isSome f xs (fun z hz => h z (by simp [hz])))
    rw [hys]
    rfl

/-- The P fraction inside the parsed `P2O5` alias compound. -/
lemma ratep : elementFromAliasRate eltP "P2O5" stdCatalog = .ok (15486881/35485631) := by
  have hp2o5 : compoundNew "P2O5" stdCatalog = .ok [(eltP, 2), (eltO, 5)] := by decide
  have hcount : countOf [(eltP, 2), (eltO, 5)] eltP.name = some 2 := by decide
  simp only [elementFromAliasRate, hp2o5, elementFraction, hcount, Option.map_some]
  simp only [molarMass, List.foldl, Element.molar_mass, eltP, eltO]
  norm_num

/-- The K fraction inside the parsed `K2O` alias compound. -/
lemma ratek : elementFromAliasRate eltK "K2O" stdCatalog = .ok (390983/470978) := by
  have hk2o : compoundNew "K2O" stdCatalog = .ok [(eltK, 2), (eltO, 1)] := by decide
  have hcount : countOf [(eltK, 2), (eltO, 1)] eltK.name = some 2 := by decide
  simp only [elementFromAliasRate, hk2o, elementFraction, hcount, Option.map_some]
  simp only [molarMass, List.foldl, Element.molar_mass, eltK, eltO]
  norm_num

/-- The Mg fraction inside the parsed `MgO` alias compound. -/
lemma ratemg : elementFromAliasRate eltMg "MgO" stdCatalog = .ok (24305/40304) := by
  have hmgo : compoundNew "MgO" stdCatalog = .ok [(eltMg, 1), (eltO, 1)] := by decide
  have hcount : countOf [(eltMg, 1), (eltO, 1)] eltMg.name = some 1 := by decide
  simp only [elementFromAliasRate, hmgo, elementFraction, hcount, Option.map_some]
  simp only [molarMass, List.foldl, Element.molar_mass, eltMg, eltO]
  norm_num

/-- Evaluation of the NPK 24-8-16 macro mix. -/
lemma pushA : pushMacroElements ⟨24, 8, 16, 0⟩ stdCatalog =
    some [(eltN, 24/100), (eltP, 15486881/35485631 * 8 / 100),
      (eltK, 390983/470978 * 16 / 100)] := by
  have hN : List.lookup "N" stdCatalog = some eltN := rfl
  have hP : List.lookup "P" stdCatalog = some eltP := rfl
  have hK : List.lookup "K" stdCatalog = some eltK := rfl
  have hNP : (eltN.name = eltP.name) = False := eq_false (by decide)
  have hNK : (eltN.name = eltK.name) = False := eq_false (by decide)
  have hPK : (eltP.name = eltK.name) = False := eq_false (by decide)
  rw [pushMacroElements]
  norm_num [f64Eps, hN, hP, hK]
  simp only [ratep, ratek, insertComp, hNP, hNK, hPK, if_false, Except.toOption,
    Option.map_some]
  norm_num [List.cons.injEq]
  simp only [insertComp, hNP, hNK, hPK, if_false]

/-- Evaluation of the NPK+Mg 24-8-16+2.5 macro mix. -/
lemma pushB : pushMacroElements ⟨24, 8, 16, 5/2⟩ stdCatalog =
    some [(eltN, 24/100), (eltP, 15486881/35485631 * 8 / 100),
      (eltK, 390983/470978 * 16 / 100), (eltMg, 24305/40304 * (5/2) / 100)] := by
  have hN : List.lookup "N" stdCatalog = some eltN := rfl
  have hP : List.lookup "P" stdCatalog = some eltP := rfl
  have hK : List.lookup "K" stdCatalog = some eltK := rfl
  have hMg : List.lookup "Mg" stdCatalog = some eltMg := rfl
  have hNP : (eltN.name = eltP.name) = False := eq_false (by decide)
  have hNK : (eltN.name = eltK.name) = False := eq_false (by decide)
  have hPK : (eltP.name = eltK.name) = False := eq_false (by decide)
  have hNMg : (eltN.name = eltMg.name) = False := eq_false (by decide)
  have hPMg : (eltP.name = eltMg.name) = False := eq_false (by decide)
  have hKMg : (eltK.name = eltMg.name) = False := eq_false (by decide)
  rw [pushMacroElements]
  norm_num [f64Eps, hN, hP, hK, hMg]
  simp only [ratep, ratek, ratemg, insertComp, hNP, hNK, hPK, hNMg, hPMg, hKMg, if_false,
    Except.toOption, Option.map_some]
  norm_num [List.cons.injEq]
  simp only [insertComp, hNP, hNK, hPK, hNMg, hPMg, hKMg, if_false]

/-! ### Claim theorems -/

/-- Claim C1 (code bug evaluation).  The claim says parsing `X*5H2O` yields
exactly X's counts plus 5×{H:2,O:1}; for X = KNO3 that would be
{K:1, N:1, O:3+5=8, H:10}.  The code instead continues the scan after the
`'*'` branch (no break/return), re-processing "5H2O": the pending multiplier
3 of "O" grows to 35, the trailing flush then adds 34 to O, and H and O are
merged a second time — the map ends up {K:1, N:1, O:41, H:12}. -/
theorem c1_hydrate_continues_scan :
    (compoundNew "KNO3*5H2O" stdCatalog).map
      (fun m => (countOf m "K", countOf m "N", countOf m "O", countOf m "H", m.length)) =
      .ok (some 1, some 1, some 41, some 12, 4) ∧
    (compoundNew "KNO3*5H2O" stdCatalog).map (fun m => (countOf m "O", countOf m "H")) ≠
      .ok (some 8, some 10) := by
  constructor
  · decide
  · decide

/-- Claim C2 (counterexample).  A source whose entry "B" is an object with
neither a `formula` nor a `compounds` key does NOT fail the load: load_db
returns Ok, "B" is silently skipped and the well-formed entry "A" is still
added — contradicting the claim that such a source errors with no entry
added. -/
theorem c2_counterexample :
    loadDb (Json.obj [("A", .obj [("formula", .str "KNO3")]), ("B", .obj [("note", .str "x")])])
      stdCatalog = .ok [("A", Fert.compound [(eltK, 1), (eltN, 1), (eltO, 3)])] ∧
    (loadDb (Json.obj [("A", .obj [("formula", .str "KNO3")]), ("B", .obj [("note", .str "x")])])
      stdCatalog).isOk = true := by
  constructor
  · decide
  · decide

/-- Claim C2 (amended).  An object entry carrying neither a `compounds` nor a
`formula` key is silently skipped by the load loop: the load continues on the
remaining entries with the catalog unchanged, exactly as if the entry were
absent (no error is raised for it, and no entry is added for it). -/
theorem c2_amended_skip (cat : KnownElements) (name : String)
    (fields : List (String × Json)) (rest : List (String × Json))
    (db : List (String × Fert)) (h1 : hasKey fields "compounds" = false)
    (h2 : hasKey fields "formula" = false) :
    loadDbGo cat ((name, Json.obj fields) :: rest) db = loadDbGo cat rest db := by
  rw [loadDbGo]
  simp only [h1, h2, Bool.false_eq_true, if_false]

/-- Witness for `c2_amended_skip` at a concrete malformed entry. -/
theorem c2_amended_skip_witness :
    hasKey [("note", Json.str "x")] "compounds" = false ∧
    hasKey [("note", Json.str "x")] "formula" = false ∧
    loadDbGo stdCatalog
        [("B", Json.obj [("note", Json.str "x")]), ("A", Json.obj [("formula", Json.str "KNO3")])]
        [] =
      loadDbGo stdCatalog [("A", Json.obj [("formula", Json.str "KNO3")])] [] :=
  ⟨by decide, by decide,
    c2_amended_skip stdCatalog "B" [("note", Json.str "x")]
      [("A", Json.obj [("formula", Json.str "KNO3")])] [] (by decide) (by decide)⟩

/-- Claim C3 (counterexample).  The claim's universal conclusion "the net
count contributed by that occurrence equals the literal d" fails on the u32
program: for the literal 4294967296 = 2^32 the accumulator and the flush
wrap, and parsing "K4294967296" reports count 0, not 4294967296 (a debug
build instead panics at the overflow and reports nothing). -/
theorem c3_counterexample :
    compoundNew "K4294967296" stdCatalog = .ok [(eltK, 0)] ∧ (0 : ℕ) ≠ 4294967296 := by
  constructor
  · decide
  · decide

/-- Claim C3 (amended).  (i) At any scan state in which element `e` holds its
provisionally registered count of 1, the trailing-context flush of a pending
digit multiplier `cnt` (no sub-compound pending) adds the wrapped `cnt - 1`,
leaving the net count `cnt % 2^32` — equal to the literal for every value
below 2^32, including 0.  (ii) From any mid-scan state, a run of digit
characters accumulates the pending multiplier as `(value*10 + digit) % 2^32`
and touches nothing else.  (iii) End to end, for any catalog and any
recognized element symbol (an uppercase letter followed by lowercase
letters) followed by a nonempty decimal literal, parsing yields exactly that
element with the literal's wrapped value.  (iv) A digit with no pending
element or sub-compound fails with the DanglingMultiplier error:
parse("2KO"). -/
theorem c3_element_digit_count :
    (∀ (m : Cmap) (e : Element) (cnt : ℕ), countOf m e.name = some 1 →
      ∃ m2, processTrail m (some cnt) (some e) none = .ok (m2, true) ∧
        countOf m2 e.name = some (cnt % u32size)) ∧
    (∀ (cat : KnownElements) (sub : List Char → Except PError Cmap) (ds : List Char)
      (m : Cmap) (e : Element) (w : ℕ), (∀ c ∈ ds, c.isDigit = true) →
      parseGo cat sub ds ⟨[], m, some e, none, some w, 0, 0⟩ =
        .ok ⟨[], m, some e, none,
          some (ds.foldl (fun a c => (a * 10 + (c.toNat - 48)) % u32size) w), 0, 0⟩) ∧
    (∀ (cat : KnownElements) (c : Char) (ls : List Char) (e : Element) (ds : List Char),
      c.isUpper = true → (∀ l ∈ ls, l.isLower = true) → (∀ d ∈ ds, d.isDigit = true) →
      ds ≠ [] → List.lookup (String.mk (c :: ls)) cat = some e →
      compoundNew (String.mk (c :: ls ++ ds)) cat =
        .ok [(e, ds.foldl (fun a d => (a * 10 + (d.toNat - 48)) % u32size) 0)]) ∧
    compoundNew "2KO" stdCatalog = .error .danglingMultiplier := by
  refine ⟨?_, ?_, ?_, by decide⟩
  · intro m e cnt h1
    refine ⟨addCount m e ((cnt + u32size - 1) % u32size), rfl, ?_⟩
    rw [countOf_addCount e _ m 1 h1, one_add_wrapped_pred]
  · exact fun cat sub ds m e w h => goDigits cat sub ds m e w h
  · intro cat c ls e ds hu hls hds hne hlook
    obtain ⟨d0, dtail, rfl⟩ : ∃ d0 dtail, ds = d0 :: dtail := by
      cases ds with
      | nil => exact absurd rfl hne
      | cons a b => exact ⟨a, b, rfl⟩
    have hd0 : d0.isDigit = true := hds d0 (by simp)
    have hd0v : d0.toNat - 48 < u32size := by
      have := char_isDigit_toNat hd0
      simp only [Char.toNat, u32size]
      omega
    show parseAux cat ((String.mk (c :: ls ++ d0 :: dtail)).length + 1)
      (c :: ls ++ d0 :: dtail) = _
    rw [parseAux, List.cons_append, parseGo]
    simp only [lt_self_iff_false, if_false, hu, if_true, processTrail]
    simp only [Bool.false_eq_true, if_false, List.isEmpty_nil, if_true]
    rw [goLowers cat _ ls (d0 :: dtail) _ hls rfl]
    simp only [List.singleton_append]
    rw [parseGo]
    simp only [lt_self_iff_false, if_false, Bool.false_eq_true, isUpper_false_of_isDigit hd0,
      isLower_false_of_isDigit hd0, hd0, if_true, Option.isNone_none,
      List.isEmpty_cons, Bool.not_false, Bool.true_and, processAcc, hlook, addCount]
    rw [goDigits cat _ dtail [(e, 1 % u32size)] e (d0.toNat - 48)
      (fun x hx => hds x (by simp [hx]))]
    simp only [finishParse, processTrail, addCount, if_pos rfl]
    have hone : (1 : ℕ) % u32size = 1 := by norm_num [u32size]
    have hV : dtail.foldl (fun a c => (a * 10 + (c.toNat - 48)) % u32size)
        (d0.toNat - 48) < u32size := foldl_digits_lt dtail _ hd0v
    rw [hone, one_add_wrapped_pred, Nat.mod_eq_of_lt hV]
    simp only [Bool.not_true, Bool.false_and, Bool.false_eq_true, if_false, if_true,
      List.isEmpty_cons, List.foldl_cons, Nat.zero_mul, Nat.zero_add,
      Nat.mod_eq_of_lt hd0v]

/-- Witness for `c3_element_digit_count`: part (i) at a one-row map with a
pending multiplier of 0 (the wrapped net count is 0 % 2^32), and part (iii)
at the two-letter symbol formula "Mg23" over the standard catalog. -/
theorem c3_element_digit_count_witness :
    (countOf [(eltK, 1)] eltK.name = some 1 ∧
      (∃ m2, processTrail [(eltK, 1)] (some 0) (some eltK) none = .ok (m2, true) ∧
        countOf m2 eltK.name = some (0 % u32size))) ∧
    (('M'.isUpper = true) ∧ (∀ l ∈ ['g'], l.isLower = true) ∧
      (∀ d ∈ ['2', '3'], d.isDigit = true) ∧ (['2', '3'] ≠ ([] : List Char)) ∧
      List.lookup (String.mk ['M', 'g']) stdCatalog = some eltMg ∧
      compoundNew (String.mk ('M' :: ['g'] ++ ['2', '3'])) stdCatalog =
        .ok [(eltMg, ['2', '3'].foldl (fun a d => (a * 10 + (d.toNat - 48)) % u32size) 0)]) :=
  ⟨⟨by decide, c3_element_digit_count.1 [(eltK, 1)] eltK 0 (by decide)⟩,
    by decide, by decide, by decide, by decide, by decide,
    c3_element_digit_count.2.2.1 stdCatalog 'M' ['g'] eltMg ['2', '3'] (by decide) (by decide)
      (by decide) (by decide) (by decide)⟩

/-- Claim C4.  `parse("KNO3")` = {K:1, N:1, O:3} with molar mass within 0.001
of 101.103; `parse("Ca(NO3)2")` = {Ca:1, N:2, O:6} within 0.001 of 164.086;
`parse("(((Ca)))2")` = {Ca:2} within 0.001 of 80.156 — over the modelled
standard catalog. -/
theorem c4_concrete_parses :
    (∃ m, compoundNew "KNO3" stdCatalog = .ok m ∧ countOf m "K" = some 1 ∧
      countOf m "N" = some 1 ∧ countOf m "O" = some 3 ∧ m.length = 3 ∧
      |molarMass m - 101103/1000| < 1/1000) ∧
    (∃ m, compoundNew "Ca(NO3)2" stdCatalog = .ok m ∧ countOf m "Ca" = some 1 ∧
      countOf m "N" = some 2 ∧ countOf m "O" = some 6 ∧ m.length = 3 ∧
      |molarMass m - 164086/1000| < 1/1000) ∧
    (∃ m, compoundNew "(((Ca)))2" stdCatalog = .ok m ∧ countOf m "Ca" = some 2 ∧
      m.length = 1 ∧ |molarMass m - 80156/1000| < 1/1000) := by
  refine ⟨⟨[(eltK, 1), (eltN, 1), (eltO, 3)], by decide, by decide, by decide, by decide,
      by decide, ?_⟩,
    ⟨[(eltCa, 1), (eltN, 2), (eltO, 6)], by decide, by decide, by decide, by decide,
      by decide, ?_⟩,
    ⟨[(eltCa, 2)], by decide, by decide, by decide, ?_⟩⟩
  · simp only [molarMass, List.foldl, Element.molar_mass, eltK, eltN, eltO]
    rw [abs_sub_lt_iff]
    norm_num
  · simp only [molarMass, List.foldl, Element.molar_mass, eltCa, eltN, eltO]
    rw [abs_sub_lt_iff]
    norm_num
  · simp only [molarMass, List.foldl, Element.molar_mass, eltCa]
    rw [abs_sub_lt_iff]
    norm_num

/-- Claim C5.  TargetDose is the algebraic inverse of ResultOfDose, for both
dosing shapes: computing the compound dose for target concentration C on
element E and feeding it back through the same shape in ResultOfDose mode
reports exactly the per-element dose C for E (the names of the fertilizer
rows being duplicate-free and the relevant denominators nonzero). -/
theorem c5_target_dose_inverse (concs : List ElementConc) (effV : ℕ) (E : String)
    (C cont port : ℚ) (fe : ElementConc) (hV : 0 < effV)
    (hn : (concs.map (fun c => c.element.name)).Nodup)
    (hf : findTarget concs E = some fe) (hc : fe.concentration ≠ 0)
    (hcont : cont ≠ 0) (hport : port ≠ 0) :
    (∃ r₁ r₂, DryDosing.dilute ⟨C, .targetDose, some E⟩ concs effV = .ok r₁ ∧
       DryDosing.dilute ⟨r₁.compound_dose, .resultOfDose, none⟩ concs effV = .ok r₂ ∧
       doseFor r₂.elements_dose E = some C) ∧
    (∃ s₁ s₂, SolutionDosing.dilute ⟨cont, port, C, .targetDose, some E⟩ concs effV = .ok s₁ ∧
       SolutionDosing.dilute ⟨cont, port, s₁.compound_dose, .resultOfDose, none⟩ concs effV =
         .ok s₂ ∧
       doseFor s₂.elements_dose E = some C) := by
  have hVQ : ((effV : ℚ)) ≠ 0 := by
    have h0 : (0 : ℚ) < (effV : ℚ) := by exact_mod_cast hV
    exact h0.ne'
  constructor
  · have h1 : DryDosing.dilute ⟨C, .targetDose, some E⟩ concs effV =
        .ok ⟨C / fe.concentration * (effV : ℚ) / 1000,
          diluteFertilizer concs (C / fe.concentration)⟩ := by
      simp only [DryDosing.dilute, hf]
    refine ⟨_, _, h1, rfl, ?_⟩
    simp only
    rw [doseFor_diluteFertilizer concs _ E fe hn hf]
    congr 1
    field_simp
    ring
  · have h1 : SolutionDosing.dilute ⟨cont, port, C, .targetDose, some E⟩ concs effV =
        .ok ⟨C * (effV : ℚ) / fe.concentration * cont / port / 1000,
          diluteFertilizer concs
            ((C * (effV : ℚ) / fe.concentration * cont / port / 1000 * 1000 / cont * port) /
              (effV : ℚ))⟩ := by
      simp only [SolutionDosing.dilute, hf]
    refine ⟨_, _, h1, rfl, ?_⟩
    simp only
    rw [doseFor_diluteFertilizer concs _ E fe hn hf]
    congr 1
    field_simp
    ring

/-- Witness for `c5_target_dose_inverse`: one N-row fertilizer, a 170 L
effective volume, target 2 mg/L, 1000 mL container and 100 mL portion. -/
theorem c5_target_dose_inverse_witness :
    (0 < 170 ∧
      (([⟨eltN, 1, []⟩] : List ElementConc).map (fun c => c.element.name)).Nodup ∧
      findTarget [⟨eltN, 1, []⟩] "N" = some ⟨eltN, 1, []⟩ ∧
      ((⟨eltN, 1, []⟩ : ElementConc).concentration ≠ 0) ∧ ((1000 : ℚ) ≠ 0) ∧
      ((100 : ℚ) ≠ 0)) ∧
    ((∃ r₁ r₂, DryDosing.dilute ⟨2, .targetDose, some "N"⟩ [⟨eltN, 1, []⟩] 170 = .ok r₁ ∧
       DryDosing.dilute ⟨r₁.compound_dose, .resultOfDose, none⟩ [⟨eltN, 1, []⟩] 170 = .ok r₂ ∧
       doseFor r₂.elements_dose "N" = some 2) ∧
     (∃ s₁ s₂, SolutionDosing.dilute ⟨1000, 100, 2, .targetDose, some "N"⟩ [⟨eltN, 1, []⟩] 170 =
         .ok s₁ ∧
       SolutionDosing.dilute ⟨1000, 100, s₁.compound_dose, .resultOfDose, none⟩
           [⟨eltN, 1, []⟩] 170 = .ok s₂ ∧
       doseFor s₂.elements_dose "N" = some 2)) :=
  ⟨⟨by decide, by simp, by simp [findTarget, eltN], by norm_num, by norm_num, by norm_num⟩,
    c5_target_dose_inverse [⟨eltN, 1, []⟩] 170 "N" 2 1000 100 ⟨eltN, 1, []⟩ (by decide)
      (by simp) (by simp [findTarget, eltN]) (by norm_num) (by norm_num) (by norm_num)⟩

/-- Claim C6.  Whenever the dissolved grams scaled by portion/container equal
the dry dose — in particular 10 g in 1000 mL dosed by 100 mL portions versus
1 g dry — SolutionDosing (ResultOfDose) and DryDosing (ResultOfDose) produce
identical per-element dose lists for every fertilizer and tank. -/
theorem c6_solution_dry_equivalence (concs : List ElementConc) (effV : ℕ)
    (dryD solD cont port : ℚ) (h : solD * port / cont = dryD) :
    ∃ r s, DryDosing.dilute ⟨dryD, .resultOfDose, none⟩ concs effV = .ok r ∧
      SolutionDosing.dilute ⟨cont, port, solD, .resultOfDose, none⟩ concs effV = .ok s ∧
      s.elements_dose = r.elements_dose := by
  refine ⟨_, _, rfl, rfl, ?_⟩
  show diluteFertilizer concs ((solD * 1000 / cont * port) / (effV : ℚ)) =
    diluteFertilizer concs (dryD * 1000 / (effV : ℚ))
  rw [← h]
  congr 1
  simp only [div_eq_mul_inv]
  ring

/-- Witness for `c6_solution_dry_equivalence` at the concrete spec instance:
10 g in 1000 mL with 100 mL portions versus 1 g dry. -/
theorem c6_solution_dry_equivalence_witness :
    ((10 : ℚ) * 100 / 1000 = 1) ∧
    (∃ r s, DryDosing.dilute ⟨1, .resultOfDose, none⟩ [⟨eltN, 1, []⟩] 170 = .ok r ∧
      SolutionDosing.dilute ⟨1000, 100, 10, .resultOfDose, none⟩ [⟨eltN, 1, []⟩] 170 = .ok s ∧
      s.elements_dose = r.elements_dose) :=
  ⟨by norm_num,
    c6_solution_dry_equivalence [⟨eltN, 1, []⟩] 170 1 10 1000 100 (by norm_num)⟩

/-- Claim C7 (counterexample).  `parse("(((Ca(((")` does fail, but with
`UnknownElement` carrying the accumulated bracket text — not with
`EmptyCompound` as claimed. -/
theorem c7_counterexample :
    compoundNew "(((Ca(((" stdCatalog = .error (.unknownElement "((Ca(((") ∧
    PError.unknownElement "((Ca(((" ≠ PError.emptyCompound := by
  constructor
  · decide
  · decide

/-- Claim C7 (amended).  `parse("(((Ca(((")` fails with
UnknownElement("((Ca((("): the whole unbalanced tail sits in the accumulator
at end of scan and is looked up as an element name.  `parse("Ololo")` fails
with UnknownElement and `parse("2KO")` with DanglingMultiplier.
EmptyCompound arises for unbalanced inputs that accumulate nothing, e.g.
`parse("(")`. -/
theorem c7_amended_failures :
    compoundNew "(((Ca(((" stdCatalog = .error (.unknownElement "((Ca(((") ∧
    compoundNew "Ololo" stdCatalog = .error (.unknownElement "Ololo") ∧
    compoundNew "2KO" stdCatalog = .error .danglingMultiplier ∧
    compoundNew "(" stdCatalog = .error .emptyCompound := by
  refine ⟨by decide, by decide, by decide, by decide⟩

/-- Claim C8.  The NPK 24-8-16 macro mix stores elemental fractions
N = 0.24 exactly, P within 0.001 of 0.035 and K within 0.001 of 0.133, the
oxide percentages being converted through the element-from-alias rates of the
parsed P2O5 / K2O compounds; adding MgO = 2.5 additionally stores the
corresponding Mg fraction (rate × 2.5 / 100, within 0.001 of 0.015). -/
theorem c8_npk_mix :
    (∃ comp rp rk, pushMacroElements ⟨24, 8, 16, 0⟩ stdCatalog = some comp ∧
      elementFromAliasRate eltP "P2O5" stdCatalog = .ok rp ∧
      elementFromAliasRate eltK "K2O" stdCatalog = .ok rk ∧
      fracOf comp "N" = some (24/100) ∧
      fracOf comp "P" = some (rp * 8 / 100) ∧
      fracOf comp "K" = some (rk * 16 / 100) ∧
      comp.length = 3 ∧
      (∃ p, fracOf comp "P" = some p ∧ |p - 35/1000| < 1/1000) ∧
      (∃ k, fracOf comp "K" = some k ∧ |k - 133/1000| < 1/1000)) ∧
    (∃ comp rmg, pushMacroElements ⟨24, 8, 16, 5/2⟩ stdCatalog = some comp ∧
      elementFromAliasRate eltMg "MgO" stdCatalog = .ok rmg ∧
      fracOf comp "Mg" = some (rmg * (5/2) / 100) ∧
      (∃ g, fracOf comp "Mg" = some g ∧ |g - 15/1000| < 1/1000)) := by
  constructor
  · refine ⟨_, _, _, pushA, ratep, ratek, rfl, rfl, rfl, rfl, ⟨_, rfl, ?_⟩, ⟨_, rfl, ?_⟩⟩
    · rw [abs_sub_lt_iff]; norm_num
    · rw [abs_sub_lt_iff]; norm_num
  · refine ⟨_, _, pushB, ratemg, rfl, ⟨_, rfl, ?_⟩⟩
    rw [abs_sub_lt_iff]; norm_num

/-- Claim C9.  effective_volume truncates volume × 0.85 (or × 1.0 when the
absolute flag is set) and metric_volume truncates the volume, both by floor;
the 9×5×5 dm linear tank gives 225 / 191 / 225. -/
theorem c9_tank_volumes :
    (∀ t : Tank, 0 ≤ t.volume.value →
      ((t.effectiveVolume : ℤ) = ⌊t.volume.value * (if t.absolute then 1 else 85/100)⌋ ∧
       (t.metricVolume : ℤ) = ⌊t.volume.value⌋)) ∧
    (Tank.mk (.linear 9 5 5) false).metricVolume = 225 ∧
    (Tank.mk (.linear 9 5 5) false).effectiveVolume = 191 ∧
    (Tank.mk (.linear 9 5 5) true).effectiveVolume = 225 := by
  refine ⟨fun t hv => ⟨?_, ?_⟩, ?_, ?_, ?_⟩
  · rw [Tank.effectiveVolume, REAL_VOLUME_MULT]
    rw [Int.toNat_of_nonneg]
    apply Int.floor_nonneg.mpr
    apply mul_nonneg hv
    split <;> norm_num
  · rw [Tank.metricVolume, Int.toNat_of_nonneg (Int.floor_nonneg.mpr hv)]
  · simp only [Tank.metricVolume, TankVolume.value]
    norm_num
    decide
  · simp only [Tank.effectiveVolume, TankVolume.value, REAL_VOLUME_MULT]
    norm_num
    decide
  · simp only [Tank.effectiveVolume, TankVolume.value, REAL_VOLUME_MULT]
    norm_num
    decide

/-- Witness for `c9_tank_volumes` at a 200 L literal-volume tank. -/
theorem c9_tank_volumes_witness :
    (0 ≤ (Tank.mk (.lit 200) false).volume.value) ∧
    (((Tank.mk (.lit 200) false).effectiveVolume : ℤ) =
      ⌊(Tank.mk (.lit 200) false).volume.value *
        (if (Tank.mk (.lit 200) false).absolute then 1 else 85/100)⌋ ∧
     ((Tank.mk (.lit 200) false).metricVolume : ℤ) = ⌊(Tank.mk (.lit 200) false).volume.value⌋) :=
  ⟨by norm_num [TankVolume.value],
    c9_tank_volumes.1 (Tank.mk (.lit 200) false) (by norm_num [TankVolume.value])⟩

/-- The alias rows of an element succeed when every alias rate of that
element is ok. -/
lemma aliasConcs_isSome (e : Element) (pct : ℚ) (cat : KnownElements)
    (h : ∀ a ∈ e.aliases.getD [], okNonzeroB (elementFromAliasRate e a cat) = true) :
    (aliasConcs e pct cat).isSome := by
  rw [aliasConcs]
  cases hal : e.aliases with
  | none => rfl
  | some al =>
    apply mapOpt_isSome
    intro a ha
    have hok := h a (by rw [hal]; simpa using ha)
    rw [okNonzeroB.eq_def] at hok
    cases heq : elementFromAliasRate e a cat with
    | error er => rw [heq] at hok; simp at hok
    | ok q =>
      rw [elementToAliasRate, heq]
      rfl

/-- The alias rows of an element panic as soon as one alias rate fails. -/
lemma aliasConcs_none (e : Element) (pct : ℚ) (cat : KnownElements) (a : String) (er : PError)
    (ha : a ∈ e.aliases.getD []) (he : elementFromAliasRate e a cat = .error er) :
    aliasConcs e pct cat = none := by
  rw [aliasConcs]
  cases hal : e.aliases with
  | none => rw [hal] at ha; simp at ha
  | some al =>
    apply mapOpt_eq_none _ _ a (by rw [hal] at ha; simpa using ha)
    rw [elementToAliasRate, he]
    rfl

/-- Claim C10.  components_percentage — on Compound and on MixedFertilizer —
unwraps the alias rates: it is total (some) whenever every significant
element's aliases parse against the catalog and contain the element with
nonzero fraction, and it panics (none) for EVERY fertilizer of either kind
containing a significant element one of whose aliases fails the alias-rate
computation (fails to parse, or parses to a compound not containing the
element). -/
theorem c10_components_percentage_panic :
    (∀ (m : Cmap) (cat : KnownElements),
      (∀ p ∈ m, p.1.is_insignificant = false →
        ∀ a ∈ p.1.aliases.getD [], okNonzeroB (elementFromAliasRate p.1 a cat) = true) →
      (compoundComponentsPercentage m cat).isSome) ∧
    (∀ (comp : List (Element × ℚ)) (cat : KnownElements),
      (∀ p ∈ comp, p.1.is_insignificant = false →
        ∀ a ∈ p.1.aliases.getD [], okNonzeroB (elementFromAliasRate p.1 a cat) = true) →
      (mixComponentsPercentage comp cat).isSome) ∧
    (∀ (m : Cmap) (cat : KnownElements) (p : Element × ℕ) (a : String) (er : PError),
      p ∈ m → p.1.is_insignificant = false → a ∈ p.1.aliases.getD [] →
      elementFromAliasRate p.1 a cat = .error er →
      compoundComponentsPercentage m cat = none) ∧
    (∀ (comp : List (Element × ℚ)) (cat : KnownElements) (p : Element × ℚ) (a : String)
      (er : PError), p ∈ comp → p.1.is_insignificant = false → a ∈ p.1.aliases.getD [] →
      elementFromAliasRate p.1 a cat = .error er →
      mixComponentsPercentage comp cat = none) := by
  refine ⟨?_, ?_, ?_, ?_⟩
  · intro m cat h
    rw [compoundComponentsPercentage]
    have hsome : (mapOpt (fun p =>
        (aliasConcs p.1 (p.1.molar_mass * (p.2 : ℚ) / molarMass m) cat).map
          (fun al => (⟨p.1, p.1.molar_mass * (p.2 : ℚ) / molarMass m, al⟩ : ElementConc)))
        (m.filter (fun p => !p.1.is_insignificant))).isSome := by
      apply mapOpt_isSome
      intro p hp
      have hmem := (List.mem_filter.mp hp).1
      have hins : p.1.is_insignificant = false := by
        have := (List.mem_filter.mp hp).2
        simpa using this
      obtain ⟨al2, hal2⟩ :=
        Option.isSome_iff_exists.mp (aliasConcs_isSome p.1 _ cat (h p hmem hins))
      rw [hal2]
      rfl
    obtain ⟨v, hv⟩ := Option.isSome_iff_exists.mp hsome
    rw [hv]
    rfl
  · intro comp cat h
    rw [mixComponentsPercentage]
    have hsome : (mapOpt (fun p =>
        (aliasConcs p.1 p.2 cat).map (fun al => (⟨p.1, p.2, al⟩ : ElementConc)))
        (comp.filter (fun p => !p.1.is_insignificant))).isSome := by
      apply mapOpt_isSome
      intro p hp
      have hmem := (List.mem_filter.mp hp).1
      have hins : p.1.is_insignificant = false := by
        have := (List.mem_filter.mp hp).2
        simpa using this
      obtain ⟨al2, hal2⟩ :=
        Option.isSome_iff_exists.mp (aliasConcs_isSome p.1 _ cat (h p hmem hins))
      rw [hal2]
      rfl
    obtain ⟨v, hv⟩ := Option.isSome_iff_exists.mp hsome
    rw [hv]
    rfl
  · intro m cat p a er hp hins ha he
    rw [compoundComponentsPercentage]
    have hnone : mapOpt (fun p =>
        (aliasConcs p.1 (p.1.molar_mass * (p.2 : ℚ) / molarMass m) cat).map
          (fun al => (⟨p.1, p.1.molar_mass * (p.2 : ℚ) / molarMass m, al⟩ : ElementConc)))
        (m.filter (fun p => !p.1.is_insignificant)) = none := by
      apply mapOpt_eq_none _ _ p (List.mem_filter.mpr ⟨hp, by simp [hins]⟩)
      rw [aliasConcs_none p.1 _ cat a er ha he]
      rfl
    rw [hnone]
    rfl
  · intro comp cat p a er hp hins ha he
    rw [mixComponentsPercentage]
    have hnone : mapOpt (fun p =>
        (aliasConcs p.1 p.2 cat).map (fun al => (⟨p.1, p.2, al⟩ : ElementConc)))
        (comp.filter (fun p => !p.1.is_insignificant)) = none := by
      apply mapOpt_eq_none _ _ p (List.mem_filter.mpr ⟨hp, by simp [hins]⟩)
      rw [aliasConcs_none p.1 _ cat a er ha he]
      rfl
    rw [hnone]
    rfl

/-- Witness for `c10_components_percentage_panic`: totality for a one-row
potassium compound and mix over the standard catalog, the compound panic at
an alias that fails to parse ("Zz" over `badCat`), and the mix panic at an
alias that parses but lacks the element ("Y" over `badCat2`). -/
theorem c10_components_percentage_panic_witness :
    ((∀ p ∈ ([(eltK, 1)] : Cmap), p.1.is_insignificant = false →
        ∀ a ∈ p.1.aliases.getD [], okNonzeroB (elementFromAliasRate p.1 a stdCatalog) = true) ∧
      (compoundComponentsPercentage [(eltK, 1)] stdCatalog).isSome) ∧
    ((∀ p ∈ ([(eltK, (1 : ℚ))] : List (Element × ℚ)), p.1.is_insignificant = false →
        ∀ a ∈ p.1.aliases.getD [], okNonzeroB (elementFromAliasRate p.1 a stdCatalog) = true) ∧
      (mixComponentsPercentage [(eltK, (1 : ℚ))] stdCatalog).isSome) ∧
    ((eltX, 1) ∈ ([(eltX, 1)] : Cmap) ∧ eltX.is_insignificant = false ∧
      "Zz" ∈ eltX.aliases.getD [] ∧
      elementFromAliasRate eltX "Zz" badCat = .error (.unknownElement "Zz") ∧
      compoundComponentsPercentage [(eltX, 1)] badCat = none) ∧
    ((eltX2, (1 : ℚ)) ∈ ([(eltX2, (1 : ℚ))] : List (Element × ℚ)) ∧
      eltX2.is_insignificant = false ∧ "Y" ∈ eltX2.aliases.getD [] ∧
      elementFromAliasRate eltX2 "Y" badCat2 = .error (.invalidAlias "Y") ∧
      mixComponentsPercentage [(eltX2, (1 : ℚ))] badCat2 = none) := by
  have hokc : ∀ p ∈ ([(eltK, 1)] : Cmap), p.1.is_insignificant = false →
      ∀ a ∈ p.1.aliases.getD [], okNonzeroB (elementFromAliasRate p.1 a stdCatalog) = true := by
    intro p hp _ a ha
    have hpk : p = (eltK, 1) := by simpa using hp
    subst hpk
    have hak : a = "K2O" := by simpa [eltK] using ha
    subst hak
    rw [show ((eltK, (1 : ℕ))).1 = eltK from rfl, ratek, okNonzeroB.eq_def]
    simp only [bne_iff_ne, ne_eq, decide_eq_true_eq]
    norm_num
  have hokm : ∀ p ∈ ([(eltK, (1 : ℚ))] : List (Element × ℚ)), p.1.is_insignificant = false →
      ∀ a ∈ p.1.aliases.getD [], okNonzeroB (elementFromAliasRate p.1 a stdCatalog) = true := by
    intro p hp _ a ha
    have hpk : p = (eltK, (1 : ℚ)) := by simpa using hp
    subst hpk
    have hak : a = "K2O" := by simpa [eltK] using ha
    subst hak
    rw [show ((eltK, (1 : ℚ))).1 = eltK from rfl, ratek, okNonzeroB.eq_def]
    simp only [bne_iff_ne, ne_eq, decide_eq_true_eq]
    norm_num
  refine ⟨⟨hokc, c10_components_percentage_panic.1 [(eltK, 1)] stdCatalog hokc⟩,
    ⟨hokm, c10_components_percentage_panic.2.1 [(eltK, (1 : ℚ))] stdCatalog hokm⟩,
    ⟨List.mem_singleton.mpr rfl, by decide, by decide, by decide,
      c10_components_percentage_panic.2.2.1 [(eltX, 1)] badCat (eltX, 1) "Zz"
        (.unknownElement "Zz") (List.mem_singleton.mpr rfl) (by decide) (by decide)
        (by decide)⟩,
    ⟨List.mem_singleton.mpr rfl, by decide, by decide, by decide,
      c10_components_percentage_panic.2.2.2 [(eltX2, (1 : ℚ))] badCat2 (eltX2, (1 : ℚ)) "Y"
        (.invalidAlias "Y") (List.mem_singleton.mpr rfl) (by decide) (by decide)
        (by decide)⟩⟩

end FertCalc
